import Mathlib

set_option maxHeartbeats 1000000

namespace Rollup

/-! ## Data model

Shallow embedding of the build-graph orchestrator in src/src/Graph.ts.
Pure data; the JavaScript objects become Lean structures, maps become
association lists, and the warning handler becomes an accumulated list. -/

/-- A diagnostic record passed to the warning handler.  Only the fields the
orchestrator populates are tracked. -/
structure Warning where
  code : String := ""
  message : String := ""
  cycle : List String := []
  (importer : String := "")
  name : String := ""
  source : String := ""
  pos : Nat := 0
  deriving DecidableEq, Repr

/-- Value of the moduleSideEffects tree-shaking sub-option: a boolean, the
string no-external, or a user predicate (kept abstract as a tag, since the
orchestrator passes it through without inspecting it). -/
inductive ModuleSideEffectsValue
  | boolVal (b : Bool)
  | noExternal
  | predicate
  deriving DecidableEq, Repr

/-- The object form of the treeshake option; `none` models an absent
(undefined) field of the user-supplied options object. -/
structure TreeshakeObj where
  annotations : Option Bool := none
  moduleSideEffects : Option ModuleSideEffectsValue := none
  propertyReadSideEffects : Option Bool := none
  pureExternalModules : Option Bool := none
  tryCatchDeoptimization : Option Bool := none
  unknownGlobalSideEffects : Option Bool := none
  deriving DecidableEq, Repr

/-- The user-supplied treeshake option: a boolean, undefined, or an object. -/
inductive TreeshakeSetting
  | boolS (b : Bool)
  | undef
  | obj (o : TreeshakeObj)
  deriving DecidableEq, Repr

/-- Normalised tree-shaking options as stored on the Graph. -/
structure TreeshakingOptions where
  annotations : Bool
  moduleSideEffects : Option ModuleSideEffectsValue
  propertyReadSideEffects : Bool
  pureExternalModules : Option Bool
  tryCatchDeoptimization : Bool
  unknownGlobalSideEffects : Bool
  deriving DecidableEq, Repr

/-- Normalisation of the treeshake option performed by the Graph constructor
(Graph.ts lines 102-119): the literal false disables tree-shaking; true and
undefined choose all defaults; an object defaults each boolean sub-option to
true unless it is exactly false, and passes moduleSideEffects and
pureExternalModules through unchanged. -/
def mkTreeshakingOptions : TreeshakeSetting → Option TreeshakingOptions
  | .boolS false => none
  | .boolS true => some
      { annotations := true
        moduleSideEffects := some (.boolVal true)
        propertyReadSideEffects := true
        pureExternalModules := none
        tryCatchDeoptimization := true
        unknownGlobalSideEffects := true }
  | .undef => some
      { annotations := true
        moduleSideEffects := some (.boolVal true)
        propertyReadSideEffects := true
        pureExternalModules := none
        tryCatchDeoptimization := true
        unknownGlobalSideEffects := true }
  | .obj o => some
      { annotations := o.annotations != some false
        moduleSideEffects := o.moduleSideEffects
        propertyReadSideEffects := o.propertyReadSideEffects != some false
        pureExternalModules := o.pureExternalModules
        tryCatchDeoptimization := o.tryCatchDeoptimization != some false
        unknownGlobalSideEffects := o.unknownGlobalSideEffects != some false }

/-- errDeprecation from utils/error: a DEPRECATED_FEATURE warning. -/
def errDeprecation (message : String) : Warning :=
  { code := "DEPRECATED_FEATURE", message := message }

/-- Graph.warnDeprecation (Graph.ts lines 292-300): an active deprecation is
reported; under strict deprecations it becomes a fatal error, otherwise it is
routed to the warning handler. -/
def warnDeprecation (strictDeprecations : Bool) (deprecation : String)
    (activeDeprecation : Bool) : Except Warning (List Warning) :=
  if activeDeprecation || strictDeprecations then
    if strictDeprecations then .error (errDeprecation deprecation)
    else .ok [errDeprecation deprecation]
  else .ok []

/-- The deprecation message for treeshake.pureExternalModules. -/
def pureExternalModulesDeprecation : String :=
  "The treeshake.pureExternalModules option is deprecated. The treeshake.moduleSideEffects option should be used instead."

/-- The treeshaking part of the Graph constructor (Graph.ts lines 102-126):
normalise the option, then emit a deprecation diagnostic whenever
pureExternalModules is defined.  The result is the stored options together
with the warnings emitted, or a fatal error under strict deprecations. -/
def initTreeshake (strictDeprecations : Bool) (ts : TreeshakeSetting) :
    Except Warning (Option TreeshakingOptions × List Warning) :=
  match mkTreeshakingOptions ts with
  | none => .ok (none, [])
  | some topts =>
    if topts.pureExternalModules.isSome then
      match warnDeprecation strictDeprecations pureExternalModulesDeprecation true with
      | .error e => .error e
      | .ok ws => .ok (some topts, ws)
    else .ok (some topts, [])

/-- One entry of a serialisable plugin cache: key, access counter, value. -/
structure CacheEntry where
  key : String
  counter : Nat
  value : String := ""
  deriving DecidableEq, Repr

/-- The cache of one named plugin. -/
structure PluginCache where
  name : String
  entries : List CacheEntry
  deriving DecidableEq, Repr

/-- Serialised form of a module kept in the rollup cache. -/
structure ModuleJSON where
  id : String
  dependencies : List String := []
  code : String := ""
  deriving DecidableEq, Repr

/-- The user-supplied cache option: the literal false, undefined, or a cache
object with optional serialised modules and plugin caches. -/
inductive CacheSetting
  | falseC
  | undef
  | cacheObj (modules : List ModuleJSON) (plugins : Option (List PluginCache))
  deriving DecidableEq, Repr

/-- Increment the access counter of every plugin-cache entry (the loop in the
Graph constructor, lines 90-94). -/
def incrementCounters (pc : List PluginCache) : List PluginCache :=
  pc.map fun p => { p with entries := p.entries.map fun e => { e with counter := e.counter + 1 } }

/-- Cache handling in the Graph constructor (Graph.ts lines 82-95): collect
the cached modules by id, and unless caching is disabled adopt the supplied
plugin cache (or a fresh empty one) with every access counter incremented. -/
def initCache : CacheSetting → List (String × ModuleJSON) × Option (List PluginCache)
  | .falseC => ([], none)
  | .undef => ([], some (incrementCounters []))
  | .cacheObj ms plugins =>
      (ms.map fun m => (m.id, m), some (incrementCounters (plugins.getD [])))

/-- The cache returned by Graph.getCache. -/
structure RollupCache where
  modules : List ModuleJSON
  plugins : Option (List PluginCache)
  deriving DecidableEq, Repr

/-- Plugin-cache eviction in Graph.getCache (lines 232-240): every entry whose
counter reached cacheExpiry is deleted, and a plugin whose entries were all
deleted is removed entirely. -/
def evictPluginCache (cacheExpiry : Nat) (pc : List PluginCache) : List PluginCache :=
  (pc.map fun p =>
    { p with entries := p.entries.filter fun e => decide (e.counter < cacheExpiry) }).filter
    fun p => !p.entries.isEmpty

/-- The preserveSignature value of an entry module.  The source stores the
literal false for the spec value none; the other values are the strings
strict and allow-extension. -/
inductive PreserveSig
  | none
  | strict
  | allowExtension
  deriving DecidableEq, Repr

/-- Modelled from the spec: one step of an AST node include routine (the
Module and AST subsystem is outside the file in view).  A rule states that
once every item in requireList is included, the node includes target — a
Variable or statement it reads and the statements required to produce it. -/
structure Rule where
  requireList : List Nat
  target : Nat
  deriving DecidableEq, Repr

/-- Resolution state of one dynamic import site. -/
inductive DynamicResolution
  | unresolved
  | resolvedModule (id : String)
  | resolvedExternal (id : String)
  deriving DecidableEq, Repr

/-- One entry of a module importDescriptions map: the requested export name,
the id of the producing module (once linked) and the source position. -/
structure ImportDescription where
  name : String
  module : String
  start : Nat := 0
  deriving DecidableEq, Repr

/-- An internal source module.  AST-level data is abstracted: items lists the
ids of the module statements and Variables, exportItems the items backing
its exports, and rules the behaviour of its include routine. -/
structure Module where
  id : String
  sources : List String := []
  resolvedIds : List (String × String) := []
  dynamicImports : List DynamicResolution := []
  (importDescriptions : List (String × ImportDescription) := [])
  exports : List String := []
  dependencies : List String := []
  (importers : List String := [])
  dynamicImporters : List String := []
  includedDynamicImporters : List String := []
  isEntryPoint : Bool := false
  isExecuted : Bool := false
  moduleSideEffects : Bool := true
  preserveSignature : PreserveSig := .strict
  execIndex : Nat := 0
  items : List Nat := []
  exportItems : List Nat := []
  rules : List Rule := []
  code : String := ""
  deriving DecidableEq, Repr

/-- An external module: a declared-external leaf that is never loaded. -/
structure ExternalModule where
  id : String
  moduleSideEffects : Bool := true
  (importers : List String := [])
  dynamicImporters : List String := []
  unusedNames : List String := []
  deriving DecidableEq, Repr

/-- A value of the moduleById map. -/
inductive GraphModule
  | internal (m : Module)
  | external (e : ExternalModule)
  deriving DecidableEq, Repr

/-- The build phase of the orchestrator. -/
inductive BuildPhase
  | loadAndParse
  | analyse
  | generate
  deriving DecidableEq, Repr

/-- The orchestrator state (class Graph).  The warning handler onwarn is
modelled by accumulating the warnings it receives. -/
structure Graph where
  moduleById : List (String × GraphModule) := []
  modules : List Module := []
  externalModules : List ExternalModule := []
  included : Finset Nat := ∅
  needsTreeshakingPass : Bool := false
  phase : BuildPhase := .loadAndParse
  treeshakingOptions : Option TreeshakingOptions := Option.none
  preserveModules : Bool := false
  shimMissingExports : Bool := false
  cacheExpiry : Nat := 10
  pluginCache : Option (List PluginCache) := Option.none
  warnings : List Warning := []
  deriving DecidableEq

/-- Graph.warn (lines 277-290): route a warning to onwarn (the stringifier it
installs is presentation only and not tracked). -/
def Graph.warn (g : Graph) (w : Warning) : Graph :=
  { g with warnings := g.warnings ++ [w] }

/-- Module.toJSON, modelled from the spec: the serialised form of a module
(id, dependencies, transformed source). -/
def Module.toJSON (m : Module) : ModuleJSON :=
  { id := m.id, dependencies := m.dependencies, code := m.code }

/-- Graph.getCache (lines 230-246): evict expired plugin-cache entries, then
return the serialised modules together with the surviving plugin caches. -/
def getCache (g : Graph) : Graph × RollupCache :=
  let evicted := g.pluginCache.map (evictPluginCache g.cacheExpiry)
  ({ g with pluginCache := evicted },
   { modules := g.modules.map Module.toJSON, plugins := evicted })

/-- Read-only projection of a module returned by Graph.getModuleInfo. -/
structure ModuleInfo where
  dynamicallyImportedIds : List String
  dynamicImporters : List String
  hasModuleSideEffects : Bool
  id : String
  (importedIds : List String) (importers : List String)
  isEntry : Bool
  isExternal : Bool
  deriving DecidableEq, Repr

/-- Graph.getModuleInfo (lines 248-275): a fatal error for an unknown id,
otherwise the read-only projection of the found module.  After loading every
source of a module is present in resolvedIds, so the lookup default is never
taken on reachable states. -/
def getModuleInfo (g : Graph) (moduleId : String) : Except String ModuleInfo :=
  match g.moduleById.lookup moduleId with
  | Option.none => .error ("Unable to find module " ++ moduleId)
  | some (.internal m) => .ok
      { dynamicallyImportedIds := m.dynamicImports.filterMap fun r =>
          match r with
          | .resolvedModule i => some i
          | .resolvedExternal i => some i
          | .unresolved => Option.none
        dynamicImporters := m.dynamicImporters
        hasModuleSideEffects := m.moduleSideEffects
        id := m.id, importedIds := m.sources.map fun s => (m.resolvedIds.lookup s).getD s
        isEntry := m.isEntryPoint, importers := m.importers
        isExternal := false }
  | some (.external e) => .ok
      { dynamicallyImportedIds := []
        dynamicImporters := e.dynamicImporters
        hasModuleSideEffects := e.moduleSideEffects
        id := e.id, importedIds := []
        isEntry := false, importers := e.importers
        isExternal := true }

/-! ## Includer (tree-shaker) -/

/-- Modelled from the spec: a module is included iff any of its statements or
variables is included (Module.isIncluded). -/
def Module.isIncluded (m : Module) (g : Graph) : Bool :=
  m.items.any fun i => decide (i ∈ g.included)

/-- Every module of the graph carrying the given id is marked executed. -/
def executedAt (g : Graph) (x : String) : Prop :=
  ∀ m ∈ g.modules, m.id = x → m.isExecuted = true

/-- Set the isExecuted flag of every module with the given id. -/
def setExecuted (g : Graph) (id : String) : Graph :=
  { g with modules := g.modules.map fun m =>
      if m.id = id then { m with isExecuted := true } else m }

/-- Modelled from the spec: the internal dependencies with side effects of a
module, as traversed by markModuleAndImpureDependenciesAsExecuted
(utils/traverseStaticDependencies, outside the file in view). -/
def impureDeps (g : Graph) (id : String) : List String :=
  match g.modules.find? fun m => m.id = id with
  | some m => m.dependencies.filter fun d =>
      match g.modules.find? fun m2 => m2.id = d with
      | some m2 => m2.moduleSideEffects
      | Option.none => false
  | Option.none => []

/-- One round of closing a set of module ids under impure dependencies. -/
def impureStep (g : Graph) (s : List String) : List String :=
  (s ++ s.flatMap (impureDeps g)).dedup

/-- Modelled from the spec: a module id together with its transitive
side-effectful dependencies. -/
def impureClosure (g : Graph) (id : String) : List String :=
  (List.range (g.modules.length + 1)).foldl (fun s _ => impureStep g s) [id]

/-- Modelled from the spec: markModuleAndImpureDependenciesAsExecuted marks
the module and its transitive side-effectful dependencies as executed; it
never touches the included set. -/
def markModuleAndImpureDependenciesAsExecuted (g : Graph) (entry : Module) : Graph :=
  (impureClosure g entry.id).foldl setExecuted g

/-- Modelled from the spec: Module.includeAllExports first makes sure the
module is executed, then marks every export of the module as included. -/
def includeAllExports (g : Graph) (m : Module) : Graph :=
  let g2 := markModuleAndImpureDependenciesAsExecuted g m
  { g2 with included := g2.included ∪ m.exportItems.toFinset }

/-- The seeding loop of Graph.includeStatements (lines 340-346): an entry
whose preserveSignature is not none (the source stores the literal false for
none) includes all its exports; otherwise the entry and its impure
dependencies are only marked as executed. -/
def seedEntries (g : Graph) (entryModules : List Module) : Graph :=
  entryModules.foldl
    (fun acc m =>
      if m.preserveSignature ≠ PreserveSig.none then includeAllExports acc m
      else markModuleAndImpureDependenciesAsExecuted acc m) g

/-- The include routine of one AST node: when every requirement is included
the node includes its target, setting the needs-another-pass flag iff the
target is newly included. -/
def applyRule (s : Finset Nat × Bool) (r : Rule) : Finset Nat × Bool :=
  if r.requireList.all fun i => decide (i ∈ s.1) then
    if r.target ∈ s.1 then s else (insert r.target s.1, true)
  else s

/-- Modelled from the spec: Module.include walks the AST top-down invoking
each node include routine. -/
def includeModule (s : Finset Nat × Bool) (m : Module) : Finset Nat × Bool :=
  m.rules.foldl applyRule s

/-- The loop body of one tree-shaking pass: starting from the included set
with the flag reset, every executed module runs its include routine. -/
def passFold (g : Graph) : Finset Nat × Bool :=
  g.modules.foldl (fun acc m => if m.isExecuted then includeModule acc m else acc)
    (g.included, false)

/-- One tree-shaking pass of Graph.includeStatements (lines 350-355): reset
needsTreeshakingPass, then run the include routine of every executed
module. -/
def treeshakePass (g : Graph) : Graph :=
  { g with included := (passFold g).1, needsTreeshakingPass := (passFold g).2 }

/-- Every item some rule of some module can include. -/
def ruleTargets (g : Graph) : Finset Nat :=
  (g.modules.flatMap fun m => m.rules.map Rule.target).toFinset

/-- The finite domain inside which the included set grows. -/
def itemUniverse (g : Graph) : Finset Nat :=
  g.included ∪ ruleTargets g

/-- The do-while loop of Graph.includeStatements (lines 349-356) with an
explicit iteration bound; the bound is proved sufficient by the fixed-point
theorem below. -/
def includeLoopFuel : Nat → Graph → Graph
  | 0, g => g
  | fuel+1, g =>
    let g2 := treeshakePass g
    if g2.needsTreeshakingPass then includeLoopFuel fuel g2 else g2

/-- The tree-shaking loop: passes run until one leaves the flag unset. -/
def includeLoop (g : Graph) : Graph :=
  includeLoopFuel ((itemUniverse g).card + 1) g

/-- Modelled from the spec: with tree-shaking disabled every statement of
every module is included (Module.includeAllInBundle). -/
def includeAllInBundle (g : Graph) : Graph :=
  { g with included := g.included ∪ (g.modules.flatMap Module.items).toFinset }

/-- Modelled from the spec: ExternalModule.warnUnusedImports warns when
some imported names were never referenced in included code. -/
def warnUnusedImports (g : Graph) (e : ExternalModule) : Graph :=
  if e.unusedNames.isEmpty then g
  else g.warn
    { code := "UNUSED_EXTERNAL_IMPORT", source := e.id,
      message := "unused external imports from " ++ e.id }

/-- Graph.includeStatements (lines 339-363): seed the entries, then iterate
tree-shaking passes to a fixed point (or include everything when
tree-shaking is disabled), and finally warn about unused external imports. -/
def includeStatements (g : Graph) (entryModules : List Module) : Graph :=
  let g1 := seedEntries g entryModules
  let g2 :=
    if g1.treeshakingOptions.isSome then includeLoop g1
    else includeAllInBundle g1
  g2.externalModules.foldl warnUnusedImports g2

/-! ## Linker -/

/-- State of the execution-order DFS. -/
structure DfsState where
  ordered : List Module := []
  analysed : List String := []
  stack : List String := []
  cyclePaths : List (List String) := []
  deriving DecidableEq, Repr

/-- The cycle path of a grey revisit: the portion of the DFS stack from the
revisited module on, closed by repeating that module. -/
def cyclePathFrom (stack : List String) (id : String) : List String :=
  (stack.dropWhile fun s => s ≠ id) ++ [id]

/-- Modelled from the spec: one visit of the depth-first traversal of
analyseModuleExecution (utils/executionOrder, outside the file in view) with
grey/black colouring.  A black node is skipped, a grey revisit records a
cycle path, and a finished module is appended to the post-order, which is
the execution order.  The fuel bounds the recursion depth; one unit is spent
per level, so any fuel beyond the number of modules is enough. -/
def dfsVisit (g : List Module) : Nat → String → DfsState → DfsState
  | 0, _, s => s
  | fuel+1, id, s =>
    if s.analysed.contains id then s
    else if s.stack.contains id then
      { s with cyclePaths := s.cyclePaths ++ [cyclePathFrom s.stack id] }
    else
      match g.find? fun m => m.id = id with
      | Option.none => s
      | some m =>
        let s2 := m.dependencies.foldl (fun acc d => dfsVisit g fuel d acc)
          { s with stack := s.stack ++ [id] }
        { s2 with
          stack := s.stack
          analysed := s2.analysed ++ [id]
          ordered := s2.ordered ++ [m] }

/-- Result of the execution-order analysis. -/
structure ExecutionAnalysis where
  orderedModules : List Module
  cyclePaths : List (List String)
  deriving DecidableEq, Repr

/-- Modelled from the spec: analyseModuleExecution runs the DFS from the
entry set and returns the execution order and the detected cycle paths. -/
def analyseModuleExecution (g : Graph) (entryModules : List Module) : ExecutionAnalysis :=
  let s := (entryModules.map Module.id).foldl
    (fun acc id => dfsVisit g.modules (g.modules.length + 1) id acc) {}
  { orderedModules := s.ordered, cyclePaths := s.cyclePaths }

/-- Modelled from the spec: Module.linkDependencies records the resolved
target of every source of the module among its dependencies. -/
def Module.linkDependencies (m : Module) : Module :=
  { m with dependencies := m.sources.map fun s => (m.resolvedIds.lookup s).getD s }

/-- Modelled from the spec: Module.bindReferences attaches Variables to AST
references; it changes none of the module data tracked here. -/
def Module.bindReferences (m : Module) : Module := m

/-- The CIRCULAR_DEPENDENCY warning emitted for one cycle path
(Graph.ts lines 370-377). -/
def circularDependencyWarning (cyclePath : List String) : Warning :=
  { code := "CIRCULAR_DEPENDENCY"
    cycle := cyclePath, importer := cyclePath.headD ""
    message := "Circular dependency: " ++ String.intercalate " -> " cyclePath }

/-- Modelled from the spec: Module.getVariableForExportName — the producing
module has a variable for a requested export name iff the name is among its
exports, unless shimMissingExports synthesises a shim; an external producing
module always synthesises a variable. -/
def getVariableForExportName (g : Graph) (sourceId exportName : String) : Bool :=
  match g.modules.find? fun m => m.id = sourceId with
  | some m => m.exports.contains exportName || g.shimMissingExports
  | Option.none => true

/-- The NON_EXISTENT_EXPORT warning for one import description
(Graph.ts lines 419-429). -/
def nonExistentExportWarning (d : ImportDescription) : Warning :=
  { code := "NON_EXISTENT_EXPORT"
    message := "Non-existent export " ++ d.name ++ " is imported from " ++ d.module
    name := d.name
    source := d.module
    pos := d.start }

/-- Graph.warnForMissingExports (lines 411-433): for every module and for
every import description whose requested name is not the namespace marker,
warn when the producing module has no variable for that name. -/
def warnForMissingExports (g : Graph) : Graph :=
  g.modules.foldl
    (fun acc m =>
      m.importDescriptions.foldl
        (fun acc2 kd =>
          if kd.2.name ≠ "*" ∧ getVariableForExportName g kd.2.module kd.2.name = false then
            acc2.warn (nonExistentExportWarning kd.2)
          else acc2) acc) g

/-- Graph.link (lines 365-383): link the module dependencies, analyse the
execution order, warn once per detected cycle path, store the order back
into modules, bind references and warn for missing exports.  The cycle
warnings are routed to onwarn and never abort the build. -/
def Graph.link (g : Graph) (entryModules : List Module) : Graph :=
  let g1 := { g with modules := g.modules.map Module.linkDependencies }
  let res := analyseModuleExecution g1 entryModules
  let g2 := res.cyclePaths.foldl (fun acc p => acc.warn (circularDependencyWarning p)) g1
  let g3 := { g2 with modules := res.orderedModules }
  let g4 := { g3 with modules := g3.modules.map Module.bindReferences }
  warnForMissingExports g4

/-! ## Chunker -/

/-- An output chunk.  The flag isFacade marks the facade chunks appended
after the regular chunks; linked records that Chunk.link ran. -/
structure Chunk where
  orderedModules : List Module
  entryModules : List Module := []
  isFacade : Bool := false
  linked : Bool := false
  deriving DecidableEq, Repr

/-- Modelled from the spec: the Chunk constructor records the member modules;
the entry modules default to the contained entry points. -/
def Chunk.new (ms : List Module) : Chunk :=
  { orderedModules := ms, entryModules := ms.filter fun m => m.isEntryPoint }

/-- Modelled from the spec: Chunk.link computes cross-chunk imports and
external names for the exported Variables; only the fact that it ran is
tracked here. -/
def Chunk.link (c : Chunk) : Chunk := { c with linked := true }

/-- Modelled from the spec: sortByExecutionOrder sorts chunk modules into
execution order. -/
def sortByExecutionOrder (ms : List Module) : List Module :=
  ms.mergeSort fun a b => a.execIndex ≤ b.execIndex

/-- Fuel-bounded reachability along static dependencies. -/
def reaches (g : Graph) : Nat → Module → Module → Bool
  | 0, a, b => a.id = b.id
  | fuel+1, a, b =>
    a.id = b.id || a.dependencies.any fun d =>
      match g.modules.find? fun m => m.id = d with
      | some m => reaches g fuel m b
      | Option.none => false

/-- The colour of a module: the entries that reach it. -/
def colour (g : Graph) (entries : List Module) (m : Module) : List String :=
  (entries.filter fun e => reaches g g.modules.length e m).map Module.id

/-- Modelled from the spec: getChunkAssignments (utils/chunkAssignment,
outside the file in view) groups the included modules for the default mode —
manual chunk groups become their own chunks and the remaining included
modules group by identical colour. -/
def getChunkAssignments (g : Graph) (entryModules : List Module)
    (manualChunkModulesByAlias : List (String × List Module)) : List (List Module) :=
  let manualModules := manualChunkModulesByAlias.flatMap Prod.snd
  let rest := g.modules.filter fun m =>
    m.isIncluded g && !(manualModules.contains m)
  let colours := (rest.map (colour g entryModules)).dedup
  manualChunkModulesByAlias.map Prod.snd ++
    colours.map fun c => rest.filter fun m => colour g entryModules m = c

/-- The chunk built for one module in preserve-modules mode (lines 315-316):
a fresh chunk holding the module, whose entry list is that singleton. -/
def singleModuleChunk (m : Module) : Chunk :=
  { Chunk.new [m] with entryModules := [m] }

/-- Graph.generateChunks (lines 302-337).  Chunk.generateFacades lives
outside the file in view; it is taken as the argument genFacades, and every
chunk it yields is appended after the regular chunks, marked as a facade. -/
def generateChunks (g : Graph) (entryModules : List Module)
    (manualChunkModulesByAlias : List (String × List Module))
    (inlineDynamicImports : Bool) (genFacades : Chunk → List Chunk) : List Chunk :=
  let chunks :=
    if g.preserveModules then
      g.modules.foldl
        (fun acc m =>
          if m.isIncluded g || m.isEntryPoint || !m.includedDynamicImporters.isEmpty then
            acc ++ [singleModuleChunk m]
          else acc) []
    else
      (if inlineDynamicImports then [g.modules]
       else getChunkAssignments g entryModules manualChunkModulesByAlias).map
        fun chunkModules => Chunk.new (sortByExecutionOrder chunkModules)
  let linked := chunks.map Chunk.link
  let facades := linked.flatMap fun c => (genFacades c).map fun f => { f with isFacade := true }
  linked ++ facades

/-! ## Orchestrator -/

/-- The result handed back by the external ModuleLoader. -/
structure LoaderResult where
  entryModules : List Module
  manualChunkModulesByAlias : List (String × List Module) := []
  deriving DecidableEq, Repr

/-- Graph.parseModules (lines 385-409): the ModuleLoader is an external
collaborator, so its result is taken as an argument.  The build fails when
no entry module was produced; otherwise moduleById is split into the module
and external-module lists. -/
def parseModules (g : Graph) (loaded : LoaderResult) :
    Except String (Graph × List Module × List (String × List Module)) :=
  if loaded.entryModules.length = 0 then
    .error "You must supply options.input to rollup"
  else
    let g2 := { g with
      modules := g.modules ++ g.moduleById.filterMap fun kv =>
        match kv.2 with
        | .internal m => some m
        | .external _ => Option.none
      externalModules := g.externalModules ++ g.moduleById.filterMap fun kv =>
        match kv.2 with
        | .internal _ => Option.none
        | .external e => some e }
    .ok (g2, loaded.entryModules, loaded.manualChunkModulesByAlias)

/-- Graph.build (lines 189-228): parse, link, include and chunk, updating
the build phase along the way. -/
def build (g : Graph) (loaded : LoaderResult) (inlineDynamicImports : Bool)
    (genFacades : Chunk → List Chunk) : Except String (Graph × List Chunk) :=
  match parseModules g loaded with
  | .error e => .error e
  | .ok (g1, entryModules, manualChunkModulesByAlias) =>
    let g2 := { g1 with phase := BuildPhase.analyse }
    let g3 := g2.link entryModules
    let g4 := includeStatements g3 entryModules
    let chunks := generateChunks g4 entryModules manualChunkModulesByAlias
      inlineDynamicImports genFacades
    let g5 := { g4 with phase := BuildPhase.generate }
    .ok (g5, chunks)

/-! ## Helper definitions used in the statements below -/

/-- Whether initialising the treeshaking options produced a deprecation
diagnostic: either a fatal error or at least one warning. -/
def deprecationDiagnosticEmitted :
    Except Warning (Option TreeshakingOptions × List Warning) → Bool
  | .error _ => true
  | .ok (_, ws) => !ws.isEmpty

/-- The missing-export warnings produced for one list of import
descriptions. -/
def missingExportWarningsFor (g : Graph) (l : List (String × ImportDescription)) :
    List Warning :=
  l.filterMap fun kd =>
    if kd.2.name ≠ "*" ∧ getVariableForExportName g kd.2.module kd.2.name = false then
      some (nonExistentExportWarning kd.2)
    else Option.none

/-- A smallest self-importing entry module: it imports its own id. -/
def selfImportModule : Module :=
  { id := "a", sources := ["a"], resolvedIds := [("a", "a")] }

/-- The graph holding only the self-importing entry. -/
def selfImportGraph : Graph :=
  { modules := [selfImportModule] }

/-- A sample module whose include rules need two passes: the rule including
item 2 from item 1 is walked before the rule including item 1 from item 0. -/
def sampleTreeshakeModule : Module :=
  { id := "t"
    isExecuted := true
    items := [0, 1, 2]
    rules := [{ requireList := [1], target := 2 }, { requireList := [0], target := 1 }] }

/-- A sample graph with tree-shaking enabled and item 0 already included. -/
def sampleTreeshakeGraph : Graph :=
  { modules := [sampleTreeshakeModule]
    included := {0}
    treeshakingOptions := mkTreeshakingOptions .undef }

/-- A sample entry that preserves its signature. -/
def sampleStrictEntry : Module :=
  { id := "e1", exportItems := [10, 11], preserveSignature := .strict }

/-- A sample entry with preserveSignature none and one impure dependency. -/
def sampleNoneEntry : Module :=
  { id := "e2", exportItems := [20], preserveSignature := .none, dependencies := ["d"] }

/-- The impure dependency of the sample none entry. -/
def sampleDep : Module :=
  { id := "d", moduleSideEffects := true }

/-- The graph holding the two sample entries and the dependency. -/
def sampleSeedGraph : Graph :=
  { modules := [sampleStrictEntry, sampleNoneEntry, sampleDep] }

/-- A sample included module (item 0 is included below). -/
def sampleChunkModule : Module :=
  { id := "m1", items := [0], execIndex := 1 }

/-- A sample module that is neither included nor an entry point. -/
def sampleDeadModule : Module :=
  { id := "m2", items := [1], execIndex := 0 }

/-- A preserve-modules graph holding the two sample chunk modules. -/
def samplePreserveGraph : Graph :=
  { modules := [sampleChunkModule, sampleDeadModule]
    included := {0}
    preserveModules := true }

/-- The same two modules with preserve-modules off, for the inline mode. -/
def sampleInlineGraph : Graph :=
  { modules := [sampleChunkModule, sampleDeadModule]
    included := {0}
    preserveModules := false }

/-- A supplied plugin cache with one fresh and one ageing entry. -/
def sampleSuppliedCache : List PluginCache :=
  [{ name := "p1", entries := [{ key := "k1", counter := 0 }, { key := "k2", counter := 9 }] }]

/-- A plugin cache at snapshot time: k1 is fresh, k2 expired, and the whole
plugin p2 holds only expired entries. -/
def sampleSnapshotCache : List PluginCache :=
  [{ name := "p1", entries := [{ key := "k1", counter := 1 }, { key := "k2", counter := 10 }] },
   { name := "p2", entries := [{ key := "k3", counter := 11 }] }]

/-- A graph holding the snapshot-time plugin cache, with expiry 10. -/
def sampleSnapshotGraph : Graph :=
  { pluginCache := some sampleSnapshotCache
    cacheExpiry := 10 }

/-- An import description asking module s for the export y. -/
def sampleImportDesc : ImportDescription := { name := "y", module := "s" }

/-- A module importing the non-existent export y from module s. -/
def sampleImporter : Module :=
  { id := "x", importDescriptions := [("y", sampleImportDesc)] }

/-- The producing module; it exports only z. -/
def sampleExportSource : Module := { id := "s", exports := ["z"] }

/-- The graph holding the importer and the producing module. -/
def sampleMissingGraph : Graph := { modules := [sampleImporter, sampleExportSource] }

/-! ## Theorems -/

/-- C10: every value of options.treeshake other than the literal false —
true, undefined or any options object — enables tree-shaking; for an object
the sub-options annotations, propertyReadSideEffects, tryCatchDeoptimization
and unknownGlobalSideEffects default to true unless set exactly to false,
moduleSideEffects and pureExternalModules are passed through unchanged, and
a defined pureExternalModules always triggers a deprecation diagnostic. -/
theorem treeshake_option_normalisation :
    (∀ ts : TreeshakeSetting, ts ≠ .boolS false → (mkTreeshakingOptions ts).isSome = true) ∧
    mkTreeshakingOptions (.boolS false) = Option.none ∧
    (∀ o : TreeshakeObj, ∃ t : TreeshakingOptions,
      mkTreeshakingOptions (.obj o) = some t ∧
      (t.annotations = true ↔ o.annotations ≠ some false) ∧
      (t.propertyReadSideEffects = true ↔ o.propertyReadSideEffects ≠ some false) ∧
      (t.tryCatchDeoptimization = true ↔ o.tryCatchDeoptimization ≠ some false) ∧
      (t.unknownGlobalSideEffects = true ↔ o.unknownGlobalSideEffects ≠ some false) ∧
      t.moduleSideEffects = o.moduleSideEffects ∧
      t.pureExternalModules = o.pureExternalModules) ∧
    (∀ strict : Bool, ∀ o : TreeshakeObj,
      deprecationDiagnosticEmitted (initTreeshake strict (.obj o)) =
        o.pureExternalModules.isSome) := by
  refine ⟨?_, rfl, ?_, ?_⟩
  · intro ts hts
    cases ts with
    | boolS b => cases b with
      | false => exact absurd rfl hts
      | true => rfl
    | undef => rfl
    | obj o => rfl
  · intro o
    refine ⟨_, rfl, ?_, ?_, ?_, ?_, rfl, rfl⟩ <;> simp [bne_iff_ne]
  · intro strict o
    cases h : o.pureExternalModules with
    | none =>
      cases strict <;>
        simp [initTreeshake, mkTreeshakingOptions, warnDeprecation,
          deprecationDiagnosticEmitted, h]
    | some b =>
      cases strict <;>
        simp [initTreeshake, mkTreeshakingOptions, warnDeprecation,
          deprecationDiagnosticEmitted, h]

/-- Witness for C10 at concrete inputs: treeshake true enables tree-shaking,
and an object defining pureExternalModules yields the deprecation
diagnostic. -/
theorem treeshake_option_normalisation_witness :
    (mkTreeshakingOptions (.boolS true)).isSome = true ∧
    deprecationDiagnosticEmitted
      (initTreeshake false (.obj { pureExternalModules := some true })) = true := by
  constructor
  · exact treeshake_option_normalisation.1 (.boolS true) (by decide)
  · exact treeshake_option_normalisation.2.2.2 false { pureExternalModules := some true }

/-- C6: with caching enabled (options.cache not the literal false) the
constructor adopts a plugin cache, incrementing every supplied entry access
counter by one; at snapshot time getCache evicts exactly the entries with
counter at least cacheExpiry, drops a plugin whose entries were all evicted,
and returns a serialisation of every module in modules. -/
theorem cache_counters_and_eviction :
    (∀ cs : CacheSetting, cs ≠ .falseC → ((initCache cs).2).isSome = true) ∧
    (∀ ms : List ModuleJSON, ∀ pcs : List PluginCache, ∀ p : PluginCache, ∀ e : CacheEntry,
      p ∈ pcs → e ∈ p.entries →
      ∃ q ∈ ((initCache (.cacheObj ms (some pcs))).2).getD [],
        q.name = p.name ∧ { e with counter := e.counter + 1 } ∈ q.entries) ∧
    (∀ g : Graph, ((getCache g).2).modules = g.modules.map Module.toJSON) ∧
    (∀ g : Graph, ∀ pcs : List PluginCache, g.pluginCache = some pcs →
      ((getCache g).2).plugins = some (evictPluginCache g.cacheExpiry pcs) ∧
      (∀ q : PluginCache,
        q ∈ evictPluginCache g.cacheExpiry pcs ↔
          ∃ p ∈ pcs,
            q = { p with
              entries := p.entries.filter fun e => decide (e.counter < g.cacheExpiry) } ∧
            q.entries ≠ []) ∧
      (∀ q ∈ evictPluginCache g.cacheExpiry pcs, ∀ e ∈ q.entries,
        e.counter < g.cacheExpiry)) := by
  refine ⟨?_, ?_, fun g => rfl, ?_⟩
  · intro cs hcs
    cases cs with
    | falseC => exact absurd rfl hcs
    | undef => rfl
    | cacheObj ms plugins => rfl
  · intro ms pcs p e hp he
    refine ⟨{ p with entries := p.entries.map fun x => { x with counter := x.counter + 1 } },
      ?_, rfl, ?_⟩
    · simp only [initCache, Option.getD_some, incrementCounters]
      exact List.mem_map_of_mem _ hp
    · exact List.mem_map_of_mem _ he
  · intro g pcs hpc
    refine ⟨by simp [getCache, hpc], ?_, ?_⟩
    · intro q
      constructor
      · intro hq
        rw [evictPluginCache, List.mem_filter, List.mem_map] at hq
        obtain ⟨⟨p, hp, hpq⟩, hne⟩ := hq
        refine ⟨p, hp, hpq.symm, ?_⟩
        intro hnil
        rw [hnil] at hne
        simp at hne
      · rintro ⟨p, hp, rfl, hne⟩
        rw [evictPluginCache, List.mem_filter, List.mem_map]
        refine ⟨⟨p, hp, rfl⟩, ?_⟩
        simpa [List.isEmpty_iff] using hne
    · intro q hq e he
      rw [evictPluginCache, List.mem_filter, List.mem_map] at hq
      obtain ⟨⟨p, hp, hpq⟩, hne⟩ := hq
      rw [← hpq] at he
      simp only [List.mem_filter, decide_eq_true_eq] at he
      exact he.2

/-- Witness for C6 at concrete inputs: a cache with a fresh and a stale
entry; after construction the counters are incremented, and the snapshot
keeps only the fresh entry while removing the fully evicted plugin. -/
theorem cache_counters_and_eviction_witness :
    ((initCache (.cacheObj [] (some sampleSuppliedCache))).2).isSome = true ∧
    (∃ q ∈ ((initCache (.cacheObj [] (some sampleSuppliedCache))).2).getD [],
      q.name = "p1" ∧
      ({ key := "k1", counter := 1, value := "" } : CacheEntry) ∈ q.entries) ∧
    ((getCache sampleSnapshotGraph).2).plugins =
      some [{ name := "p1", entries := [{ key := "k1", counter := 1 }] }] := by
  refine ⟨?_, ?_, ?_⟩
  · exact cache_counters_and_eviction.1 (.cacheObj [] (some sampleSuppliedCache)) (by decide)
  · exact cache_counters_and_eviction.2.1 [] sampleSuppliedCache
      { name := "p1", entries := [{ key := "k1", counter := 0 }, { key := "k2", counter := 9 }] }
      { key := "k1", counter := 0 } (by decide) (by decide)
  · have h := (cache_counters_and_eviction.2.2.2 sampleSnapshotGraph sampleSnapshotCache rfl).1
    rw [h]
    decide

/-- C8: getModuleInfo raises a fatal error exactly when the id is not a key
of moduleById; for a known id it returns the read-only projection of the
module (id, importers, dynamic importers, side-effect flag, entry and
external flags, imported and dynamically imported ids).  In this embedding
getModuleInfo is a pure function of the graph, so it cannot modify it. -/
theorem module_info_projection :
    (∀ g : Graph, ∀ mid : String,
      (getModuleInfo g mid = .error ("Unable to find module " ++ mid)) ↔
        g.moduleById.lookup mid = Option.none) ∧
    (∀ g : Graph, ∀ mid : String, ∀ m : Module,
      g.moduleById.lookup mid = some (.internal m) →
      getModuleInfo g mid = .ok
        { dynamicallyImportedIds := m.dynamicImports.filterMap fun r =>
            match r with
            | .resolvedModule i => some i
            | .resolvedExternal i => some i
            | .unresolved => Option.none
          dynamicImporters := m.dynamicImporters
          hasModuleSideEffects := m.moduleSideEffects
          id := m.id, importedIds := m.sources.map fun s => (m.resolvedIds.lookup s).getD s
          isEntry := m.isEntryPoint, importers := m.importers
          isExternal := false }) ∧
    (∀ g : Graph, ∀ mid : String, ∀ e : ExternalModule,
      g.moduleById.lookup mid = some (.external e) →
      getModuleInfo g mid = .ok
        { dynamicallyImportedIds := []
          dynamicImporters := e.dynamicImporters
          hasModuleSideEffects := e.moduleSideEffects
          id := e.id, importedIds := []
          isEntry := false, importers := e.importers
          isExternal := true }) := by
  refine ⟨?_, ?_, ?_⟩
  · intro g mid
    cases h : g.moduleById.lookup mid with
    | none => simp [getModuleInfo, h]
    | some gm => cases gm <;> simp [getModuleInfo, h]
  · intro g mid m h
    simp [getModuleInfo, h]
  · intro g mid e h
    simp [getModuleInfo, h]

/-- Witness for C8: in a one-module graph the known id projects, the unknown
id errors. -/
theorem module_info_projection_witness :
    getModuleInfo { moduleById := [("m1", .internal sampleChunkModule)] } "m1" = .ok
      { dynamicallyImportedIds := []
        dynamicImporters := []
        hasModuleSideEffects := true
        id := "m1", importedIds := []
        isEntry := false, importers := []
        isExternal := false } ∧
    getModuleInfo { moduleById := [("m1", .internal sampleChunkModule)] } "zz" =
      .error "Unable to find module zz" := by
  constructor
  · have h := module_info_projection.2.1
      { moduleById := [("m1", .internal sampleChunkModule)] } "m1" sampleChunkModule (by decide)
    rw [h]
    rfl
  · exact (module_info_projection.1
      { moduleById := [("m1", .internal sampleChunkModule)] } "zz").mpr (by decide)

/-- C9: build fails with the fatal missing-input error — and yields no chunk
list — exactly when the loader produced zero entry modules. -/
theorem empty_input_fatal :
    (∀ g : Graph, ∀ loaded : LoaderResult, ∀ inl : Bool, ∀ gen : Chunk → List Chunk,
      loaded.entryModules = [] →
      build g loaded inl gen = .error "You must supply options.input to rollup") ∧
    (∀ g : Graph, ∀ loaded : LoaderResult, ∀ inl : Bool, ∀ gen : Chunk → List Chunk,
      loaded.entryModules ≠ [] →
      ∃ r, build g loaded inl gen = .ok r) := by
  constructor
  · intro g loaded inl gen h
    simp [build, parseModules, h]
  · intro g loaded inl gen h
    have hlen : ¬loaded.entryModules.length = 0 := by
      simpa [List.length_eq_zero] using h
    simp [build, parseModules, hlen]

/-- Witness for C9: an empty loader result fails, a one-entry result
succeeds. -/
theorem empty_input_fatal_witness :
    build {} { entryModules := [] } false (fun _ => []) =
      .error "You must supply options.input to rollup" ∧
    ∃ r, build {} { entryModules := [sampleChunkModule] } false (fun _ => []) = .ok r := by
  constructor
  · exact empty_input_fatal.1 {} { entryModules := [] } false (fun _ => []) rfl
  · exact empty_input_fatal.2 {} { entryModules := [sampleChunkModule] } false (fun _ => [])
      (by decide)

/-- Unfolding equation of missingExportWarningsFor. -/
lemma missingExportWarningsFor_cons (g : Graph) (kd : String × ImportDescription)
    (rest : List (String × ImportDescription)) :
    missingExportWarningsFor g (kd :: rest) =
      (if kd.2.name ≠ "*" ∧ getVariableForExportName g kd.2.module kd.2.name = false then
        [nonExistentExportWarning kd.2]
      else []) ++ missingExportWarningsFor g rest := by
  by_cases hc : kd.2.name ≠ "*" ∧ getVariableForExportName g kd.2.module kd.2.name = false
  · simp only [missingExportWarningsFor, List.filterMap_cons, if_pos hc]
    simp
  · simp only [missingExportWarningsFor, List.filterMap_cons, if_neg hc]
    simp

/-- Folding the conditional warn over one import-description list appends
exactly the missing-export warnings for that list. -/
lemma foldl_missing_inner (g : Graph) (l : List (String × ImportDescription)) (h : Graph) :
    l.foldl
      (fun acc2 kd =>
        if kd.2.name ≠ "*" ∧ getVariableForExportName g kd.2.module kd.2.name = false then
          acc2.warn (nonExistentExportWarning kd.2)
        else acc2) h =
    { h with warnings := h.warnings ++ missingExportWarningsFor g l } := by
  induction l generalizing h with
  | nil => simp [missingExportWarningsFor]
  | cons kd rest ih =>
    by_cases hc : kd.2.name ≠ "*" ∧ getVariableForExportName g kd.2.module kd.2.name = false
    · rw [List.foldl_cons, if_pos hc, ih, missingExportWarningsFor_cons, if_pos hc]
      simp [Graph.warn]
    · rw [List.foldl_cons, if_neg hc, ih, missingExportWarningsFor_cons, if_neg hc]
      simp

/-- warnForMissingExports only appends the missing-export warnings of every
module; all other graph components are untouched. -/
lemma warnForMissingExports_spec (g : Graph) :
    warnForMissingExports g =
      { g with warnings := g.warnings ++
          g.modules.flatMap fun m => missingExportWarningsFor g m.importDescriptions } := by
  show g.modules.foldl _ g = _
  have main : ∀ (ml : List Module) (h : Graph),
      ml.foldl
        (fun acc m =>
          m.importDescriptions.foldl
            (fun acc2 kd =>
              if kd.2.name ≠ "*" ∧ getVariableForExportName g kd.2.module kd.2.name = false then
                acc2.warn (nonExistentExportWarning kd.2)
              else acc2) acc) h =
      { h with warnings := h.warnings ++
          ml.flatMap fun m => missingExportWarningsFor g m.importDescriptions } := by
    intro ml
    induction ml with
    | nil => intro h; simp
    | cons m rest ih =>
      intro h
      rw [List.foldl_cons, foldl_missing_inner g m.importDescriptions h, ih,
        List.flatMap_cons]
      simp
  exact main g.modules g

/-- C7: after binding, for every module and every import description whose
requested name is not the namespace marker, a non-fatal NON_EXISTENT_EXPORT
warning naming the import and its source module goes to onwarn exactly when
the producing module has no variable for that name; shimMissingExports
suppresses the condition and namespace imports never trigger it. -/
theorem non_existent_export_warnings :
    (∀ g : Graph,
      (warnForMissingExports g).warnings =
        g.warnings ++ g.modules.flatMap fun m =>
          missingExportWarningsFor g m.importDescriptions) ∧
    (∀ g : Graph, (warnForMissingExports g).modules = g.modules) ∧
    (∀ g : Graph, ∀ l : List (String × ImportDescription), ∀ w : Warning,
      w ∈ missingExportWarningsFor g l ↔
        ∃ kd ∈ l, kd.2.name ≠ "*" ∧
          getVariableForExportName g kd.2.module kd.2.name = false ∧
          w = nonExistentExportWarning kd.2) ∧
    (∀ d : ImportDescription,
      (nonExistentExportWarning d).code = "NON_EXISTENT_EXPORT" ∧
      (nonExistentExportWarning d).name = d.name ∧
      (nonExistentExportWarning d).source = d.module) ∧
    (∀ g : Graph, ∀ l : List (String × ImportDescription),
      g.shimMissingExports = true → missingExportWarningsFor g l = []) := by
  refine ⟨?_, ?_, ?_, fun d => ⟨rfl, rfl, rfl⟩, ?_⟩
  · intro g
    rw [warnForMissingExports_spec]
  · intro g
    rw [warnForMissingExports_spec]
  · intro g l w
    simp only [missingExportWarningsFor, List.mem_filterMap]
    constructor
    · rintro ⟨kd, hkd, hf⟩
      by_cases hc : kd.2.name ≠ "*" ∧ getVariableForExportName g kd.2.module kd.2.name = false
      · rw [if_pos hc] at hf
        exact ⟨kd, hkd, hc.1, hc.2, (Option.some.inj hf).symm⟩
      · rw [if_neg hc] at hf
        exact absurd hf (by simp)
    · rintro ⟨kd, hkd, h1, h2, rfl⟩
      exact ⟨kd, hkd, by rw [if_pos ⟨h1, h2⟩]⟩
  · intro g l hs
    unfold missingExportWarningsFor
    rw [List.filterMap_eq_nil_iff]
    intro kd _
    have hv : getVariableForExportName g kd.2.module kd.2.name = true := by
      unfold getVariableForExportName
      cases hf : g.modules.find? fun m => m.id = kd.2.module with
      | none => rfl
      | some m => simp [hs]
    simp [hv]

/-- Witness for C7: a module importing the absent export y from s yields
exactly one NON_EXISTENT_EXPORT warning. -/
theorem non_existent_export_warnings_witness :
    (warnForMissingExports sampleMissingGraph).warnings =
      [nonExistentExportWarning sampleImportDesc] ∧
    nonExistentExportWarning sampleImportDesc ∈
      missingExportWarningsFor sampleMissingGraph [("y", sampleImportDesc)] := by
  constructor
  · rw [non_existent_export_warnings.1 sampleMissingGraph]
    decide
  · exact (non_existent_export_warnings.2.2.1 sampleMissingGraph
      [("y", sampleImportDesc)] (nonExistentExportWarning sampleImportDesc)).mpr
      ⟨("y", sampleImportDesc), by decide, by decide, by decide, rfl⟩

/-- bindReferences changes no tracked module data. -/
lemma map_bindReferences (l : List Module) : l.map Module.bindReferences = l := by
  induction l with
  | nil => rfl
  | cons m rest ih => simp [Module.bindReferences, ih]

/-- Folding warn over the cycle paths appends one circular-dependency
warning per path. -/
lemma foldl_cycle_warn (ps : List (List String)) (h : Graph) :
    ps.foldl (fun acc p => acc.warn (circularDependencyWarning p)) h =
      { h with warnings := h.warnings ++ ps.map circularDependencyWarning } := by
  induction ps generalizing h with
  | nil => simp
  | cons p rest ih =>
    rw [List.foldl_cons, ih]
    simp [Graph.warn]

/-- Graph.link in closed form: warnings of the cycle paths are appended, the
execution order is stored into modules, and the missing-export check runs on
the result. -/
lemma link_spec (g : Graph) (es : List Module) :
    g.link es =
      warnForMissingExports
        { g with
          modules := (analyseModuleExecution
            { g with modules := g.modules.map Module.linkDependencies } es).orderedModules
          warnings := g.warnings ++
            (analyseModuleExecution
              { g with modules := g.modules.map Module.linkDependencies } es).cyclePaths.map
              circularDependencyWarning } := by
  show warnForMissingExports _ = _
  rw [foldl_cycle_warn, map_bindReferences]

/-- Every missing-export warning carries the NON_EXISTENT_EXPORT code. -/
lemma mem_missingExportWarningsFor_code (g : Graph)
    (l : List (String × ImportDescription)) (w : Warning)
    (hw : w ∈ missingExportWarningsFor g l) : w.code = "NON_EXISTENT_EXPORT" := by
  simp only [missingExportWarningsFor, List.mem_filterMap] at hw
  obtain ⟨kd, _, hf⟩ := hw
  by_cases hc : kd.2.name ≠ "*" ∧ getVariableForExportName g kd.2.module kd.2.name = false
  · rw [if_pos hc] at hf
    rw [← Option.some.inj hf]
    rfl
  · rw [if_neg hc] at hf
    exact absurd hf (by simp)

/-- C5: during link exactly one CIRCULAR_DEPENDENCY warning is emitted per
cycle path of the execution-order analysis, each carrying the full path; the
warnings do not abort the build and the computed execution order is still
stored into modules.  A self-importing entry yields exactly the warning for
the one-element cycle a -> a. -/
theorem circular_dependency_warning_per_cycle :
    (∀ g : Graph, ∀ es : List Module,
      ((g.link es).warnings.filter fun w => w.code == "CIRCULAR_DEPENDENCY") =
        (g.warnings.filter fun w => w.code == "CIRCULAR_DEPENDENCY") ++
          ((analyseModuleExecution
            { g with modules := g.modules.map Module.linkDependencies } es).cyclePaths.map
            circularDependencyWarning)) ∧
    (∀ g : Graph, ∀ es : List Module,
      (g.link es).modules =
        (analyseModuleExecution
          { g with modules := g.modules.map Module.linkDependencies } es).orderedModules) ∧
    (∀ p : List String,
      (circularDependencyWarning p).code = "CIRCULAR_DEPENDENCY" ∧
      (circularDependencyWarning p).cycle = p) ∧
    (analyseModuleExecution
        { selfImportGraph with
          modules := selfImportGraph.modules.map Module.linkDependencies }
        [selfImportModule]).cyclePaths = [["a", "a"]] ∧
    (selfImportGraph.link [selfImportModule]).warnings =
      [circularDependencyWarning ["a", "a"]] := by
  refine ⟨?_, ?_, fun p => ⟨rfl, rfl⟩, by decide, by decide⟩
  · intro g es
    rw [link_spec, warnForMissingExports_spec]
    dsimp only
    rw [List.filter_append, List.filter_append]
    have h1 : ∀ ps : List (List String),
        (ps.map circularDependencyWarning).filter
          (fun w => w.code == "CIRCULAR_DEPENDENCY") = ps.map circularDependencyWarning := by
      intro ps
      rw [List.filter_eq_self]
      intro w hw
      obtain ⟨p, _, rfl⟩ := List.mem_map.mp hw
      rfl
    have h2 : ∀ gx : Graph, ∀ ml : List Module,
        ((ml.flatMap fun m => missingExportWarningsFor gx m.importDescriptions).filter
          (fun w => w.code == "CIRCULAR_DEPENDENCY")) = [] := by
      intro gx ml
      rw [List.filter_eq_nil_iff]
      intro w hw
      obtain ⟨m, _, hm⟩ := List.mem_flatMap.mp hw
      have := mem_missingExportWarningsFor_code gx m.importDescriptions w hm
      simp [this]
    rw [h1, h2]
    simp
  · intro g es
    rw [link_spec, warnForMissingExports_spec]

/-- generateChunks in inline-dynamic mode (preserve-modules off): one chunk
holding all modules, then the facade chunks. -/
lemma generateChunks_inline (g : Graph) (es : List Module)
    (manual : List (String × List Module)) (gen : Chunk → List Chunk)
    (hp : g.preserveModules = false) :
    generateChunks g es manual true gen =
      [Chunk.link (Chunk.new (sortByExecutionOrder g.modules))] ++
        (gen (Chunk.link (Chunk.new (sortByExecutionOrder g.modules)))).map
          (fun f => { f with isFacade := true }) := by
  simp [generateChunks, hp]

/-- A conditional append-fold builds the mapped filter. -/
lemma foldl_append_filter_map {α β : Type} (p : α → Bool) (f : α → β)
    (l : List α) (acc : List β) :
    l.foldl (fun a x => if p x then a ++ [f x] else a) acc =
      acc ++ (l.filter p).map f := by
  induction l generalizing acc with
  | nil => simp
  | cons x rest ih =>
    by_cases hx : p x
    · simp [hx, ih]
    · simp [hx, ih]

/-- generateChunks in preserve-modules mode: one singleton chunk per module
that is included, an entry point, or dynamically imported, then facades. -/
lemma generateChunks_preserve (g : Graph) (es : List Module)
    (manual : List (String × List Module)) (inl : Bool) (gen : Chunk → List Chunk)
    (hp : g.preserveModules = true) :
    generateChunks g es manual inl gen =
      ((g.modules.filter fun m =>
          m.isIncluded g || m.isEntryPoint || !m.includedDynamicImporters.isEmpty).map
        fun m => Chunk.link (singleModuleChunk m)) ++
      (((g.modules.filter fun m =>
          m.isIncluded g || m.isEntryPoint || !m.includedDynamicImporters.isEmpty).map
        fun m => Chunk.link (singleModuleChunk m)).flatMap
        fun c => (gen c).map fun f => { f with isFacade := true }) := by
  simp only [generateChunks, hp, if_true]
  rw [foldl_append_filter_map
    (fun m => m.isIncluded g || m.isEntryPoint || !m.includedDynamicImporters.isEmpty)
    singleModuleChunk g.modules []]
  simp [List.map_map, Function.comp_def]

/-- In a duplicate-free list the filter for one member is that singleton. -/
lemma filter_eq_single {α : Type} [DecidableEq α] (l : List α) (hl : l.Nodup)
    (a : α) (ha : a ∈ l) : l.filter (fun x => decide (x = a)) = [a] := by
  induction l with
  | nil => cases ha
  | cons x rest ih =>
    have hx := List.nodup_cons.mp hl
    by_cases hxa : x = a
    · subst hxa
      rw [List.filter_cons_of_pos (by simp)]
      have hrest : rest.filter (fun y => decide (y = x)) = [] := by
        rw [List.filter_eq_nil_iff]
        intro b hb
        simp only [decide_eq_true_eq]
        rintro rfl
        exact hx.1 hb
      rw [hrest]
    · rw [List.filter_cons_of_neg (by simp [hxa])]
      refine ih hx.2 ?_
      rcases List.mem_cons.mp ha with h | h
      · exact absurd h.symm hxa
      · exact h

/-- C3: with inlineDynamicImports true (and preserveModules false)
generateChunks produces exactly one non-facade chunk; that chunk holds every
included module (indeed every module), and any manual chunk grouping
supplied alongside is ignored. -/
theorem inline_dynamic_single_chunk (g : Graph) (es : List Module)
    (manual manual2 : List (String × List Module)) (gen : Chunk → List Chunk)
    (hp : g.preserveModules = false) :
    ((generateChunks g es manual true gen).filter fun c => !c.isFacade) =
      [Chunk.link (Chunk.new (sortByExecutionOrder g.modules))] ∧
    (∀ m ∈ g.modules, m.isIncluded g = true →
      m ∈ (Chunk.link (Chunk.new (sortByExecutionOrder g.modules))).orderedModules) ∧
    generateChunks g es manual true gen = generateChunks g es manual2 true gen := by
  refine ⟨?_, ?_, ?_⟩
  · rw [generateChunks_inline g es manual gen hp, List.filter_append]
    have h1 : [Chunk.link (Chunk.new (sortByExecutionOrder g.modules))].filter
        (fun c => !c.isFacade) = [Chunk.link (Chunk.new (sortByExecutionOrder g.modules))] := by
      rw [List.filter_eq_self]
      intro c hc
      rw [List.mem_singleton] at hc
      subst hc
      rfl
    have h2 : ((gen (Chunk.link (Chunk.new (sortByExecutionOrder g.modules)))).map
        (fun f => { f with isFacade := true })).filter (fun c => !c.isFacade) = [] := by
      rw [List.filter_eq_nil_iff]
      intro c hc
      obtain ⟨f, _, rfl⟩ := List.mem_map.mp hc
      simp
    rw [h1, h2, List.append_nil]
  · intro m hm _
    show m ∈ sortByExecutionOrder g.modules
    rw [sortByExecutionOrder, List.mem_mergeSort]
    exact hm
  · rw [generateChunks_inline g es manual gen hp, generateChunks_inline g es manual2 gen hp]

/-- Witness for C3: the sample two-module graph in inline mode produces one
non-facade chunk containing the included module, with a manual grouping
supplied and ignored. -/
theorem inline_dynamic_single_chunk_witness :
    ((generateChunks sampleInlineGraph [] [("x", [sampleDeadModule])] true fun _ => []).filter
      fun c => !c.isFacade) =
      [Chunk.link (Chunk.new (sortByExecutionOrder sampleInlineGraph.modules))] ∧
    sampleChunkModule ∈
      (Chunk.link (Chunk.new (sortByExecutionOrder sampleInlineGraph.modules))).orderedModules := by
  constructor
  · exact (inline_dynamic_single_chunk sampleInlineGraph [] [("x", [sampleDeadModule])] []
      (fun _ => []) rfl).1
  · exact (inline_dynamic_single_chunk sampleInlineGraph [] [("x", [sampleDeadModule])] []
      (fun _ => []) rfl).2.1 sampleChunkModule (by decide) (by decide)

/-- C4: with preserveModules true, generateChunks creates exactly one chunk
per included module, and that chunk's entryModules list is the singleton
list holding the module. -/
theorem preserve_modules_singleton_chunks (g : Graph) (es : List Module)
    (manual : List (String × List Module)) (inl : Bool) (gen : Chunk → List Chunk)
    (hp : g.preserveModules = true) (hnd : g.modules.Nodup)
    (m : Module) (hm : m ∈ g.modules) (hinc : m.isIncluded g = true) :
    ((generateChunks g es manual inl gen).filter fun c =>
        !c.isFacade && decide (c.orderedModules = [m])) =
      [Chunk.link (singleModuleChunk m)] ∧
    (Chunk.link (singleModuleChunk m)).entryModules = [m] ∧
    (Chunk.link (singleModuleChunk m)).orderedModules = [m] := by
  refine ⟨?_, rfl, rfl⟩
  rw [generateChunks_preserve g es manual inl gen hp, List.filter_append]
  have hfac : (((g.modules.filter fun m2 =>
      m2.isIncluded g || m2.isEntryPoint || !m2.includedDynamicImporters.isEmpty).map
      fun m2 => Chunk.link (singleModuleChunk m2)).flatMap
      fun c => (gen c).map fun f => { f with isFacade := true }).filter
      (fun c => !c.isFacade && decide (c.orderedModules = [m])) = [] := by
    rw [List.filter_eq_nil_iff]
    intro c hc
    obtain ⟨c0, _, hc0⟩ := List.mem_flatMap.mp hc
    obtain ⟨f, _, rfl⟩ := List.mem_map.mp hc0
    simp
  rw [hfac, List.append_nil, List.filter_map]
  have hcomp : ((fun c => !c.isFacade && decide (c.orderedModules = [m])) ∘
      fun m2 => Chunk.link (singleModuleChunk m2)) = fun m2 => decide (m2 = m) := by
    funext m2
    simp only [Function.comp_apply, Chunk.link, singleModuleChunk, Chunk.new]
    rw [Bool.not_false, Bool.true_and, decide_eq_decide]
    simp
  rw [hcomp]
  have hnodup : (g.modules.filter fun m2 =>
      m2.isIncluded g || m2.isEntryPoint || !m2.includedDynamicImporters.isEmpty).Nodup :=
    hnd.filter _
  have hmem : m ∈ g.modules.filter fun m2 =>
      m2.isIncluded g || m2.isEntryPoint || !m2.includedDynamicImporters.isEmpty :=
    List.mem_filter.mpr ⟨hm, by simp [hinc]⟩
  rw [filter_eq_single _ hnodup m hmem]
  rfl

/-- Witness for C4: in the sample preserve-modules graph the included module
m1 has exactly one singleton chunk with entry list [m1]. -/
theorem preserve_modules_singleton_chunks_witness :
    ((generateChunks samplePreserveGraph [] [] false fun _ => []).filter fun c =>
        !c.isFacade && decide (c.orderedModules = [sampleChunkModule])) =
      [Chunk.link (singleModuleChunk sampleChunkModule)] ∧
    (Chunk.link (singleModuleChunk sampleChunkModule)).entryModules = [sampleChunkModule] := by
  have h := preserve_modules_singleton_chunks samplePreserveGraph [] [] false (fun _ => [])
    rfl (by decide) sampleChunkModule (by decide) (by decide)
  exact ⟨h.1, h.2.1⟩

/-- Folding setExecuted never touches the included set. -/
lemma foldl_setExecuted_included (ids : List String) (g : Graph) :
    (ids.foldl setExecuted g).included = g.included := by
  induction ids generalizing g with
  | nil => rfl
  | cons i rest ih => rw [List.foldl_cons, ih]; rfl

/-- Folding setExecuted never touches the treeshaking options. -/
lemma foldl_setExecuted_treeshakingOptions (ids : List String) (g : Graph) :
    (ids.foldl setExecuted g).treeshakingOptions = g.treeshakingOptions := by
  induction ids generalizing g with
  | nil => rfl
  | cons i rest ih => rw [List.foldl_cons, ih]; rfl

/-- Marking a module and its impure dependencies as executed never touches
the included set. -/
lemma markExecuted_included (g : Graph) (e : Module) :
    (markModuleAndImpureDependenciesAsExecuted g e).included = g.included :=
  foldl_setExecuted_included _ g

/-- includeAllExports adds exactly the export items of the module. -/
lemma includeAllExports_included (g : Graph) (m : Module) :
    (includeAllExports g m).included = g.included ∪ m.exportItems.toFinset := by
  show (markModuleAndImpureDependenciesAsExecuted g m).included ∪ _ = _
  rw [markExecuted_included]

/-- The treeshaking options survive includeAllExports. -/
lemma includeAllExports_treeshakingOptions (g : Graph) (m : Module) :
    (includeAllExports g m).treeshakingOptions = g.treeshakingOptions :=
  foldl_setExecuted_treeshakingOptions _ g

/-- The entry-seeding step of one module. -/
lemma seedEntries_cons (g : Graph) (e : Module) (rest : List Module) :
    seedEntries g (e :: rest) =
      seedEntries
        (if e.preserveSignature ≠ PreserveSig.none then includeAllExports g e
         else markModuleAndImpureDependenciesAsExecuted g e) rest := rfl

/-- The treeshaking options survive the seeding loop. -/
lemma seedEntries_treeshakingOptions (g : Graph) (es : List Module) :
    (seedEntries g es).treeshakingOptions = g.treeshakingOptions := by
  induction es generalizing g with
  | nil => rfl
  | cons e rest ih =>
    rw [seedEntries_cons, ih]
    by_cases hs : e.preserveSignature ≠ PreserveSig.none
    · rw [if_pos hs, includeAllExports_treeshakingOptions]
    · rw [if_neg hs]
      exact foldl_setExecuted_treeshakingOptions _ g

/-- What the seeding loop includes: exactly the export items of the entries
whose preserveSignature is not none. -/
lemma seedEntries_included (g : Graph) (es : List Module) :
    (seedEntries g es).included =
      g.included ∪
        ((es.filter fun e => decide (e.preserveSignature ≠ PreserveSig.none)).flatMap
          Module.exportItems).toFinset := by
  induction es generalizing g with
  | nil => simp [seedEntries]
  | cons e rest ih =>
    rw [seedEntries_cons]
    by_cases hs : e.preserveSignature ≠ PreserveSig.none
    · rw [if_pos hs, ih, includeAllExports_included,
        List.filter_cons_of_pos (by simpa using hs), List.flatMap_cons, List.toFinset_append,
        Finset.union_assoc]
    · rw [if_neg hs, ih, markExecuted_included,
        List.filter_cons_of_neg (by simpa using hs)]

/-- setExecuted establishes its own executed mark. -/
lemma executedAt_setExecuted_self (g : Graph) (i : String) :
    executedAt (setExecuted g i) i := by
  intro m hm hid
  obtain ⟨m0, _, rfl⟩ := List.mem_map.mp hm
  by_cases h0 : m0.id = i
  · rw [if_pos h0]
  · rw [if_neg h0] at hid ⊢
    exact absurd hid h0

/-- setExecuted never clears an executed mark. -/
lemma executedAt_setExecuted_mono (g : Graph) (i x : String)
    (h : executedAt g x) : executedAt (setExecuted g i) x := by
  intro m hm hid
  obtain ⟨m0, hm0, rfl⟩ := List.mem_map.mp hm
  by_cases h0 : m0.id = i
  · rw [if_pos h0]
  · rw [if_neg h0] at hid ⊢
    exact h m0 hm0 hid

/-- Folding setExecuted never clears an executed mark. -/
lemma executedAt_foldl_setExecuted_mono (ids : List String) (g : Graph) (x : String)
    (h : executedAt g x) : executedAt (ids.foldl setExecuted g) x := by
  induction ids generalizing g with
  | nil => exact h
  | cons i rest ih =>
    rw [List.foldl_cons]
    exact ih _ (executedAt_setExecuted_mono g i x h)

/-- Folding setExecuted marks every listed id as executed. -/
lemma executedAt_foldl_setExecuted_mem (ids : List String) (g : Graph) (i : String)
    (hi : i ∈ ids) : executedAt (ids.foldl setExecuted g) i := by
  induction ids generalizing g with
  | nil => cases hi
  | cons j rest ih =>
    rw [List.foldl_cons]
    rcases List.mem_cons.mp hi with rfl | hr
    · exact executedAt_foldl_setExecuted_mono rest _ i (executedAt_setExecuted_self g i)
    · exact ih _ hr

/-- A set of ids only grows under one impure-closure step. -/
lemma mem_impureStep (g : Graph) (s : List String) (x : String) (hx : x ∈ s) :
    x ∈ impureStep g s := by
  rw [impureStep, List.mem_dedup]
  exact List.mem_append_left _ hx

/-- A module id belongs to its own impure closure. -/
lemma mem_impureClosure_self (g : Graph) (id : String) :
    id ∈ impureClosure g id := by
  rw [impureClosure]
  have main : ∀ (l : List Nat) (s : List String), id ∈ s →
      id ∈ l.foldl (fun s2 _ => impureStep g s2) s := by
    intro l
    induction l with
    | nil => intro s hs; exact hs
    | cons a rest ih =>
      intro s hs
      rw [List.foldl_cons]
      exact ih _ (mem_impureStep g s id hs)
  exact main _ [id] (List.mem_singleton_self id)

/-- The direct impure dependencies of a module are in its impure closure. -/
lemma impureDeps_subset_impureClosure (g : Graph) (id : String) (d : String)
    (hd : d ∈ impureDeps g id) : d ∈ impureClosure g id := by
  rw [impureClosure]
  have step1 : ∀ s : List String, id ∈ s → d ∈ impureStep g s := by
    intro s hs
    rw [impureStep, List.mem_dedup]
    exact List.mem_append_right _ (List.mem_flatMap.mpr ⟨id, hs, hd⟩)
  have main : ∀ (l : List Nat) (s : List String), id ∈ s → d ∈ s →
      d ∈ l.foldl (fun s2 _ => impureStep g s2) s := by
    intro l
    induction l with
    | nil => intro s _ hds; exact hds
    | cons a rest ih =>
      intro s hs hds
      rw [List.foldl_cons]
      exact ih _ (mem_impureStep g s id hs) (mem_impureStep g s d hds)
  rw [List.range_succ_eq_map, List.foldl_cons]
  exact main _ _ (mem_impureStep g [id] id (List.mem_singleton_self id))
    (step1 [id] (List.mem_singleton_self id))

/-- Marking a module as executed establishes its executed mark. -/
lemma executedAt_markExecuted_self (g : Graph) (e : Module) :
    executedAt (markModuleAndImpureDependenciesAsExecuted g e) e.id :=
  executedAt_foldl_setExecuted_mem _ g e.id (mem_impureClosure_self g e.id)

/-- Marking a module as executed marks every id of its impure closure. -/
lemma executedAt_markExecuted_closure (g : Graph) (e : Module) (i : String)
    (hi : i ∈ impureClosure g e.id) :
    executedAt (markModuleAndImpureDependenciesAsExecuted g e) i :=
  executedAt_foldl_setExecuted_mem _ g i hi

/-- Marking a module as executed preserves executed marks. -/
lemma executedAt_markExecuted_mono (g : Graph) (e : Module) (x : String)
    (h : executedAt g x) :
    executedAt (markModuleAndImpureDependenciesAsExecuted g e) x :=
  executedAt_foldl_setExecuted_mono _ g x h

/-- includeAllExports executes its module. -/
lemma executedAt_includeAllExports_self (g : Graph) (m : Module) :
    executedAt (includeAllExports g m) m.id := by
  intro m2 hm2 hid
  exact executedAt_markExecuted_self g m m2 hm2 hid

/-- includeAllExports preserves executed marks. -/
lemma executedAt_includeAllExports_mono (g : Graph) (m : Module) (x : String)
    (h : executedAt g x) : executedAt (includeAllExports g m) x := by
  intro m2 hm2 hid
  exact executedAt_markExecuted_mono g m x h m2 hm2 hid

/-- The seeding loop preserves executed marks. -/
lemma executedAt_seedEntries_mono (es : List Module) (g : Graph) (x : String)
    (h : executedAt g x) : executedAt (seedEntries g es) x := by
  induction es generalizing g with
  | nil => exact h
  | cons e rest ih =>
    rw [seedEntries_cons]
    by_cases hs : e.preserveSignature ≠ PreserveSig.none
    · rw [if_pos hs]
      exact ih _ (executedAt_includeAllExports_mono g e x h)
    · rw [if_neg hs]
      exact ih _ (executedAt_markExecuted_mono g e x h)

/-- The seeding loop executes every entry, whatever its signature mode. -/
lemma executedAt_seedEntries_mem (es : List Module) (g : Graph) (e : Module)
    (he : e ∈ es) : executedAt (seedEntries g es) e.id := by
  induction es generalizing g with
  | nil => cases he
  | cons e2 rest ih =>
    rcases List.mem_cons.mp he with rfl | hr
    · rw [seedEntries_cons]
      by_cases hs : e.preserveSignature ≠ PreserveSig.none
      · rw [if_pos hs]
        exact executedAt_seedEntries_mono rest _ e.id (executedAt_includeAllExports_self g e)
      · rw [if_neg hs]
        exact executedAt_seedEntries_mono rest _ e.id (executedAt_markExecuted_self g e)
    · rw [seedEntries_cons]
      exact ih _ hr

/-- A find-by-id commutes with an id-preserving module map. -/
lemma find?_id_map (l : List Module) (f : Module → Module)
    (hid : ∀ m, (f m).id = m.id) (x : String) :
    (l.map f).find? (fun m => m.id = x) = (l.find? fun m => m.id = x).map f := by
  induction l with
  | nil => rfl
  | cons m rest ih =>
    rw [List.map_cons, List.find?_cons, List.find?_cons, hid m]
    by_cases h : m.id = x
    · simp [h]
    · simp [h, ih]

/-- impureDeps only reads module ids, dependency lists and side-effect
flags, so a map preserving those leaves it unchanged. -/
lemma impureDeps_map (g : Graph) (f : Module → Module)
    (hid : ∀ m, (f m).id = m.id) (hdep : ∀ m, (f m).dependencies = m.dependencies)
    (hse : ∀ m, (f m).moduleSideEffects = m.moduleSideEffects) (x : String) :
    impureDeps { g with modules := g.modules.map f } x = impureDeps g x := by
  unfold impureDeps
  rw [show ({ g with modules := g.modules.map f } : Graph).modules = g.modules.map f from rfl,
    find?_id_map g.modules f hid x]
  cases hm : g.modules.find? fun m => m.id = x with
  | none => rfl
  | some m =>
    rw [Option.map_some']
    dsimp only
    rw [hdep m]
    apply List.filter_congr
    intro d _
    rw [find?_id_map g.modules f hid d]
    cases hfd : g.modules.find? fun m2 => m2.id = d with
    | none => rfl
    | some m2 => simp [hse m2]

/-- The impure closure is insensitive to graph changes that keep the module
count and the impure dependencies. -/
lemma impureClosure_of_same_static (g g' : Graph)
    (hlen : g'.modules.length = g.modules.length)
    (hdeps : ∀ y, impureDeps g' y = impureDeps g y) (x : String) :
    impureClosure g' x = impureClosure g x := by
  unfold impureClosure
  rw [hlen]
  have hstep : (fun s (_ : Nat) => impureStep g' s) = fun s _ => impureStep g s := by
    funext s a
    unfold impureStep
    rw [funext hdeps]
  rw [hstep]

/-- setExecuted leaves the impure closure unchanged. -/
lemma impureClosure_setExecuted (g : Graph) (i x : String) :
    impureClosure (setExecuted g i) x = impureClosure g x := by
  refine impureClosure_of_same_static g (setExecuted g i) ?_ ?_ x
  · simp [setExecuted]
  · intro y
    exact impureDeps_map g _
      (fun m => by by_cases h : m.id = i <;> simp [h])
      (fun m => by by_cases h : m.id = i <;> simp [h])
      (fun m => by by_cases h : m.id = i <;> simp [h]) y

/-- Folding setExecuted leaves the impure closure unchanged. -/
lemma impureClosure_foldl_setExecuted (ids : List String) (g : Graph) (x : String) :
    impureClosure (ids.foldl setExecuted g) x = impureClosure g x := by
  induction ids generalizing g with
  | nil => rfl
  | cons i rest ih => rw [List.foldl_cons, ih, impureClosure_setExecuted]

/-- Marking a module as executed leaves every impure closure unchanged. -/
lemma impureClosure_markExecuted (g : Graph) (e : Module) (x : String) :
    impureClosure (markModuleAndImpureDependenciesAsExecuted g e) x = impureClosure g x :=
  impureClosure_foldl_setExecuted _ g x

/-- includeAllExports leaves every impure closure unchanged. -/
lemma impureClosure_includeAllExports (g : Graph) (m : Module) (x : String) :
    impureClosure (includeAllExports g m) x = impureClosure g x := by
  have h1 : impureClosure (includeAllExports g m) x =
      impureClosure (markModuleAndImpureDependenciesAsExecuted g m) x :=
    impureClosure_of_same_static _ _ rfl (fun _ => rfl) x
  rw [h1, impureClosure_markExecuted]

/-- The seeding loop executes, for every entry, the whole impure closure of
that entry: the entry and its transitive side-effectful dependencies. -/
lemma executedAt_seedEntries_closure : ∀ (es : List Module) (g : Graph) (e : Module),
    e ∈ es → ∀ i ∈ impureClosure g e.id, executedAt (seedEntries g es) i := by
  intro es
  induction es with
  | nil =>
    intro g e he
    cases he
  | cons e2 rest ih =>
    intro g e he i hi
    rw [seedEntries_cons]
    rcases List.mem_cons.mp he with rfl | hr
    · by_cases hs : e.preserveSignature ≠ PreserveSig.none
      · rw [if_pos hs]
        refine executedAt_seedEntries_mono rest _ i ?_
        intro m2 hm2 hid
        exact executedAt_markExecuted_closure g e i hi m2 hm2 hid
      · rw [if_neg hs]
        exact executedAt_seedEntries_mono rest _ i (executedAt_markExecuted_closure g e i hi)
    · have hinv : i ∈ impureClosure
          (if e2.preserveSignature ≠ PreserveSig.none then includeAllExports g e2
           else markModuleAndImpureDependenciesAsExecuted g e2) e.id := by
        by_cases hs : e2.preserveSignature ≠ PreserveSig.none
        · rw [if_pos hs, impureClosure_includeAllExports]
          exact hi
        · rw [if_neg hs, impureClosure_markExecuted]
          exact hi
      exact ih _ e hr i hinv

/-- C2: at the start of the inclusion phase, every entry whose
preserveSignature is not none has all of its exports marked included
(seeding the liveness set); an entry whose preserveSignature is none is,
together with its transitive pure-side-effect dependencies (its whole
impure closure, which contains the entry and every direct side-effectful
dependency), only marked as executed, and none of its exports becomes
included. -/
theorem entry_seeding (g : Graph) (es : List Module) :
    ((seedEntries g es).included =
      g.included ∪
        ((es.filter fun e => decide (e.preserveSignature ≠ PreserveSig.none)).flatMap
          Module.exportItems).toFinset) ∧
    (∀ e ∈ es, e.preserveSignature ≠ PreserveSig.none →
      ∀ i ∈ e.exportItems, i ∈ (seedEntries g es).included) ∧
    (∀ e ∈ es, executedAt (seedEntries g es) e.id) ∧
    (∀ e ∈ es, e.preserveSignature = PreserveSig.none →
      ∀ i ∈ e.exportItems, i ∉ g.included →
      (∀ e2 ∈ es, e2.preserveSignature ≠ PreserveSig.none → i ∉ e2.exportItems) →
      i ∉ (seedEntries g es).included) ∧
    (∀ e ∈ es, ∀ i ∈ impureClosure g e.id, executedAt (seedEntries g es) i) ∧
    (∀ x : String, x ∈ impureClosure g x) ∧
    (∀ x d : String, d ∈ impureDeps g x → d ∈ impureClosure g x) := by
  refine ⟨seedEntries_included g es, ?_, ?_, ?_, ?_, ?_, ?_⟩
  · intro e he hs i hi
    rw [seedEntries_included]
    apply Finset.mem_union_right
    rw [List.mem_toFinset]
    exact List.mem_flatMap.mpr ⟨e, List.mem_filter.mpr ⟨he, by simpa using hs⟩, hi⟩
  · intro e he
    exact executedAt_seedEntries_mem es g e he
  · intro e _ _ i _ hgi hothers
    rw [seedEntries_included]
    intro hmem
    rcases Finset.mem_union.mp hmem with hl | hr
    · exact hgi hl
    · rw [List.mem_toFinset] at hr
      obtain ⟨e2, he2, hi2⟩ := List.mem_flatMap.mp hr
      obtain ⟨he2es, he2sig⟩ := List.mem_filter.mp he2
      exact hothers e2 he2es (by simpa using he2sig) hi2
  · intro e he i hi
    exact executedAt_seedEntries_closure es g e he i hi
  · intro x
    exact mem_impureClosure_self g x
  · intro x d hd
    exact impureDeps_subset_impureClosure g x d hd

/-- Witness for C2: seeding the sample graph includes the strict entry's
export item 10, executes the none entry and its side-effectful dependency d
(a member of the none entry's impure closure), and does not include the
none entry's export item 20. -/
theorem entry_seeding_witness :
    (10 : Nat) ∈ (seedEntries sampleSeedGraph [sampleStrictEntry, sampleNoneEntry]).included ∧
    executedAt (seedEntries sampleSeedGraph [sampleStrictEntry, sampleNoneEntry])
      sampleNoneEntry.id ∧
    executedAt (seedEntries sampleSeedGraph [sampleStrictEntry, sampleNoneEntry])
      sampleDep.id ∧
    sampleDep.id ∈ impureDeps sampleSeedGraph sampleNoneEntry.id ∧
    (20 : Nat) ∉ (seedEntries sampleSeedGraph [sampleStrictEntry, sampleNoneEntry]).included := by
  have h := entry_seeding sampleSeedGraph [sampleStrictEntry, sampleNoneEntry]
  refine ⟨?_, ?_, ?_, by decide, ?_⟩
  · exact h.2.1 sampleStrictEntry (by decide) (by decide) 10 (by decide)
  · exact h.2.2.1 sampleNoneEntry (by decide)
  · exact h.2.2.2.2.1 sampleNoneEntry (by decide) sampleDep.id (by decide)
  · exact h.2.2.2.1 sampleNoneEntry (by decide) rfl 20 (by decide) (by decide) (by decide)

/-- A fold of steps that either change nothing or grow the included set and
raise the flag has the same property. -/
lemma foldl_growth {α : Type} (step : Finset Nat × Bool → α → Finset Nat × Bool)
    (hstep : ∀ s a, step s a = s ∨ ((step s a).2 = true ∧ s.1.card < (step s a).1.card)) :
    ∀ (l : List α) (s : Finset Nat × Bool),
      l.foldl step s = s ∨
        ((l.foldl step s).2 = true ∧ s.1.card < (l.foldl step s).1.card) := by
  intro l
  induction l with
  | nil => intro s; exact Or.inl rfl
  | cons a rest ih =>
    intro s
    rw [List.foldl_cons]
    rcases hstep s a with h | ⟨hf, hc⟩
    · rw [h]
      exact ih s
    · rcases ih (step s a) with h2 | ⟨hf2, hc2⟩
      · rw [h2]
        exact Or.inr ⟨hf, hc⟩
      · exact Or.inr ⟨hf2, lt_trans hc hc2⟩

/-- One node include step changes nothing or newly includes its target,
raising the flag. -/
lemma applyRule_growth (s : Finset Nat × Bool) (r : Rule) :
    applyRule s r = s ∨ ((applyRule s r).2 = true ∧ s.1.card < (applyRule s r).1.card) := by
  unfold applyRule
  split
  · split
    · exact Or.inl rfl
    · next hmem =>
      exact Or.inr ⟨rfl, Finset.card_lt_card (Finset.ssubset_insert hmem)⟩
  · exact Or.inl rfl

/-- One module include run changes nothing or grows the included set and
raises the flag. -/
lemma includeModule_growth (s : Finset Nat × Bool) (m : Module) :
    includeModule s m = s ∨
      ((includeModule s m).2 = true ∧ s.1.card < (includeModule s m).1.card) :=
  foldl_growth applyRule applyRule_growth m.rules s

/-- One whole pass changes nothing or grows the included set with the flag
raised. -/
lemma passFold_growth (g : Graph) :
    passFold g = (g.included, false) ∨
      ((passFold g).2 = true ∧ g.included.card < (passFold g).1.card) :=
  foldl_growth _
    (fun s m => by
      by_cases hm : m.isExecuted
      · simpa [hm] using includeModule_growth s m
      · simp [hm])
    g.modules (g.included, false)

/-- A pass that leaves the flag unset did not change the included set. -/
lemma passFold_flag_false (g : Graph) (h : (passFold g).2 = false) :
    passFold g = (g.included, false) := by
  rcases passFold_growth g with he | ⟨hf, _⟩
  · exact he
  · rw [hf] at h
    cases h

/-- An item included by one node step was already included or is the node
target. -/
lemma mem_applyRule (s : Finset Nat × Bool) (r : Rule) (x : Nat)
    (hx : x ∈ (applyRule s r).1) : x ∈ s.1 ∨ x = r.target := by
  unfold applyRule at hx
  split at hx
  · split at hx
    · exact Or.inl hx
    · rcases Finset.mem_insert.mp hx with h | h
      · exact Or.inr h
      · exact Or.inl h
  · exact Or.inl hx

/-- An item included by one module run was already included or is one of the
module rule targets. -/
lemma mem_includeModule (s : Finset Nat × Bool) (m : Module) (x : Nat)
    (hx : x ∈ (includeModule s m).1) : x ∈ s.1 ∨ x ∈ m.rules.map Rule.target := by
  have main : ∀ (rs : List Rule) (s2 : Finset Nat × Bool), x ∈ (rs.foldl applyRule s2).1 →
      x ∈ s2.1 ∨ x ∈ rs.map Rule.target := by
    intro rs
    induction rs with
    | nil => intro s2 h; exact Or.inl h
    | cons r rest ih =>
      intro s2 h
      rw [List.foldl_cons] at h
      rcases ih (applyRule s2 r) h with h2 | h2
      · rcases mem_applyRule s2 r x h2 with h3 | h3
        · exact Or.inl h3
        · exact Or.inr (by simp [h3])
      · exact Or.inr (List.mem_cons_of_mem _ h2)
  exact main m.rules s hx

/-- An item included by a pass was already included or is a rule target. -/
lemma mem_passFold (g : Graph) (x : Nat) (hx : x ∈ (passFold g).1) :
    x ∈ g.included ∨ x ∈ ruleTargets g := by
  have main : ∀ (ml : List Module) (s : Finset Nat × Bool),
      x ∈ (ml.foldl (fun acc m => if m.isExecuted then includeModule acc m else acc) s).1 →
      x ∈ s.1 ∨ ∃ m ∈ ml, x ∈ m.rules.map Rule.target := by
    intro ml
    induction ml with
    | nil => intro s h; exact Or.inl h
    | cons m rest ih =>
      intro s h
      rw [List.foldl_cons] at h
      rcases ih _ h with h2 | ⟨m2, hm2, hx2⟩
      · by_cases hm : m.isExecuted
        · rw [if_pos hm] at h2
          rcases mem_includeModule s m x h2 with h3 | h3
          · exact Or.inl h3
          · exact Or.inr ⟨m, List.mem_cons_self m rest, h3⟩
        · rw [if_neg hm] at h2
          exact Or.inl h2
      · exact Or.inr ⟨m2, List.mem_cons_of_mem _ hm2, hx2⟩
  rcases main g.modules (g.included, false) hx with h | ⟨m, hm, hxm⟩
  · exact Or.inl h
  · refine Or.inr ?_
    rw [ruleTargets, List.mem_toFinset]
    exact List.mem_flatMap.mpr ⟨m, hm, hxm⟩

/-- One node include step only grows the included set. -/
lemma applyRule_subset (s : Finset Nat × Bool) (r : Rule) : s.1 ⊆ (applyRule s r).1 := by
  unfold applyRule
  split
  · split
    · exact subset_rfl
    · exact Finset.subset_insert _ _
  · exact subset_rfl

/-- A pass only grows the included set. -/
lemma passFold_subset (g : Graph) : g.included ⊆ (passFold g).1 := by
  have hmod : ∀ (rs : List Rule) (s : Finset Nat × Bool), s.1 ⊆ (rs.foldl applyRule s).1 := by
    intro rs
    induction rs with
    | nil => intro s; exact subset_rfl
    | cons r rest ih =>
      intro s
      rw [List.foldl_cons]
      exact subset_trans (applyRule_subset s r) (ih (applyRule s r))
  have main : ∀ (ml : List Module) (s : Finset Nat × Bool),
      s.1 ⊆ (ml.foldl (fun acc m => if m.isExecuted then includeModule acc m else acc) s).1 := by
    intro ml
    induction ml with
    | nil => intro s; exact subset_rfl
    | cons m rest ih =>
      intro s
      rw [List.foldl_cons]
      refine subset_trans ?_ (ih _)
      by_cases hm : m.isExecuted
      · rw [if_pos hm]
        exact hmod m.rules s
      · rw [if_neg hm]
  exact main g.modules (g.included, false)

/-- A pass leaves the item universe unchanged. -/
lemma itemUniverse_pass (g : Graph) : itemUniverse (treeshakePass g) = itemUniverse g := by
  have htargets : ruleTargets (treeshakePass g) = ruleTargets g := rfl
  apply Finset.Subset.antisymm
  · intro x hx
    rcases Finset.mem_union.mp hx with hl | hr
    · rcases mem_passFold g x hl with h | h
      · exact Finset.mem_union_left _ h
      · exact Finset.mem_union_right _ h
    · rw [htargets] at hr
      exact Finset.mem_union_right _ hr
  · intro x hx
    rcases Finset.mem_union.mp hx with hl | hr
    · exact Finset.mem_union_left _ (passFold_subset g hl)
    · rw [itemUniverse, htargets]
      exact Finset.mem_union_right _ hr

/-- A pass that raises the flag strictly grows the included set. -/
lemma treeshakePass_growth (g : Graph)
    (h : (treeshakePass g).needsTreeshakingPass = true) :
    g.included.card < (treeshakePass g).included.card := by
  rcases passFold_growth g with he | ⟨_, hc⟩
  · have : (treeshakePass g).needsTreeshakingPass = false := by
      show (passFold g).2 = false
      rw [he]
    rw [this] at h
    cases h
  · exact hc

/-- After a pass that leaves the flag unset, another pass changes nothing. -/
lemma treeshakePass_idem (g : Graph)
    (h : (treeshakePass g).needsTreeshakingPass = false) :
    treeshakePass (treeshakePass g) = treeshakePass g := by
  have hp : passFold g = (g.included, false) := passFold_flag_false g h
  have heq : treeshakePass g = { g with included := g.included, needsTreeshakingPass := false } := by
    show { g with included := (passFold g).1, needsTreeshakingPass := (passFold g).2 } = _
    rw [hp]
  rw [heq]
  have hp2 : passFold { g with included := g.included, needsTreeshakingPass := false } =
      (g.included, false) := hp
  show { ({ g with included := g.included, needsTreeshakingPass := false } : Graph) with
      included := (passFold { g with included := g.included, needsTreeshakingPass := false }).1
      needsTreeshakingPass :=
        (passFold { g with included := g.included, needsTreeshakingPass := false }).2 } =
    { g with included := g.included, needsTreeshakingPass := false }
  rw [hp2]

/-- The bounded do-while loop reaches the fixed point as soon as the fuel
exceeds the room left in the item universe. -/
lemma includeLoopFuel_spec :
    ∀ (fuel : Nat) (g : Graph), (itemUniverse g).card < fuel + g.included.card →
      (includeLoopFuel fuel g).needsTreeshakingPass = false ∧
      treeshakePass (includeLoopFuel fuel g) = includeLoopFuel fuel g := by
  intro fuel
  induction fuel with
  | zero =>
    intro g hg
    have hsub : g.included ⊆ itemUniverse g := Finset.subset_union_left
    have := Finset.card_le_card hsub
    omega
  | succ fuel ih =>
    intro g hg
    have hunfold : includeLoopFuel (fuel + 1) g =
        if (treeshakePass g).needsTreeshakingPass then includeLoopFuel fuel (treeshakePass g)
        else treeshakePass g := rfl
    rw [hunfold]
    by_cases hflag : (treeshakePass g).needsTreeshakingPass = true
    · rw [if_pos hflag]
      apply ih
      have hcard := treeshakePass_growth g hflag
      have huniv := itemUniverse_pass g
      rw [huniv]
      omega
    · have hfalse : (treeshakePass g).needsTreeshakingPass = false := by
        simpa using hflag
      rw [if_neg hflag]
      exact ⟨hfalse, treeshakePass_idem g hfalse⟩

/-- A conditional fold is the fold over the filtered list. -/
lemma foldl_ite_filter {α β : Type} (p : α → Bool) (f : β → α → β) :
    ∀ (l : List α) (b : β),
      l.foldl (fun acc x => if p x then f acc x else acc) b = (l.filter p).foldl f b := by
  intro l
  induction l with
  | nil => intro b; rfl
  | cons x rest ih =>
    intro b
    by_cases hx : p x
    · rw [List.foldl_cons, if_pos hx, List.filter_cons_of_pos hx, List.foldl_cons, ih]
    · rw [List.foldl_cons, if_neg hx, List.filter_cons_of_neg (by simpa using hx), ih]

/-- C1: with tree-shaking enabled the inclusion phase runs passes in which
include is invoked exactly on the modules whose isExecuted flag is true (the
pass equals the fold over the executed modules only); the do-while loop
terminates within the finite item universe, stopping at the first pass that
leaves needsTreeshakingPass unset, and the resulting state is a fixed point
of the pass. -/
theorem treeshaking_fixed_point (g : Graph) (es : List Module)
    (h : g.treeshakingOptions.isSome = true) :
    includeStatements g es =
      ((includeLoop (seedEntries g es)).externalModules.foldl warnUnusedImports
        (includeLoop (seedEntries g es))) ∧
    (includeLoop (seedEntries g es)).needsTreeshakingPass = false ∧
    treeshakePass (includeLoop (seedEntries g es)) = includeLoop (seedEntries g es) ∧
    (∀ g2 : Graph, treeshakePass g2 =
      { g2 with
        included := ((g2.modules.filter fun m => m.isExecuted).foldl includeModule
          (g2.included, false)).1
        needsTreeshakingPass := ((g2.modules.filter fun m => m.isExecuted).foldl includeModule
          (g2.included, false)).2 }) := by
  have hseed : (seedEntries g es).treeshakingOptions.isSome = true := by
    rw [seedEntries_treeshakingOptions]
    exact h
  have hspec := includeLoopFuel_spec ((itemUniverse (seedEntries g es)).card + 1)
    (seedEntries g es) (by omega)
  refine ⟨?_, hspec.1, hspec.2, ?_⟩
  · simp [includeStatements, hseed, includeLoop]
  · intro g2
    have hfilter : passFold g2 =
        (g2.modules.filter fun m => m.isExecuted).foldl includeModule (g2.included, false) := by
      show g2.modules.foldl (fun acc m => if m.isExecuted then includeModule acc m else acc)
        (g2.included, false) = _
      exact foldl_ite_filter (fun m => m.isExecuted) includeModule g2.modules (g2.included, false)
    show { g2 with included := (passFold g2).1, needsTreeshakingPass := (passFold g2).2 } = _
    rw [hfilter]

/-- Witness for C1: on the sample graph (two chained rules walked in the
wrong order, so two passes are needed) the loop stops with the flag unset at
a pass fixed point. -/
theorem treeshaking_fixed_point_witness :
    (includeLoop (seedEntries sampleTreeshakeGraph [])).needsTreeshakingPass = false ∧
    treeshakePass (includeLoop (seedEntries sampleTreeshakeGraph [])) =
      includeLoop (seedEntries sampleTreeshakeGraph []) := by
  have h := treeshaking_fixed_point sampleTreeshakeGraph [] (by decide)
  exact ⟨h.2.1, h.2.2.1⟩

end Rollup
